import Mathlib

/-!
Verification of the natural-language specification of
src/ext/td/tdutils/td/utils/port/IPAddress.cpp (the nchat repository's
vendored tdutils network-endpoint core) against a shallow embedding of
that file in Lean.

Texts (hostnames, labels, formatted output) are modelled as lists of
bytes (List Nat, each element a byte value), and decoded Unicode labels
as lists of code points (List Nat).  Machine integers are modelled as
Nat or Int.  The C++ uses uint32 for the punycode delta and int for the
bias and the digit remainder; for any input below the 1020-byte hostname
ceiling enforced by idn_to_ascii these quantities stay far below 2^31
(delta is bounded by 0x110000 * 1020 < 2^31), so plain Nat/Int
arithmetic coincides with the machine arithmetic on every input the
claims quantify over.

External collaborators (getaddrinfo, inet_pton) are modelled as injected
parameters, as the specification directs (section 9: keep the resolver
injectable).  The td utility helpers used by IPAddress.cpp (to_lower,
check_utf8, next_utf8_unsafe, full_split, clamp) are not part of src/;
they are modelled from the specification's words and marked as such.
-/

namespace TdNet

/-! ## Byte and text helpers (td utilities not present in src/) -/

/-- Modelled from the spec: ASCII case-insensitive canonicalization
(td to_lower on a single char), mapping bytes 65..90 to 97..122 and
leaving every other byte unchanged. -/
def toLowerByte (c : Nat) : Nat :=
  if 65 ≤ c ∧ c ≤ 90 then c + 32 else c

/-- Modelled from the spec: td to_lower over a whole byte string. -/
def to_lower (s : List Nat) : List Nat :=
  s.map toLowerByte

/-- Source is_ascii_host_char (IPAddress.cpp lines 31-33): a byte is an
ASCII host char iff its unsigned value is at most 127. -/
def is_ascii_host_char (c : Nat) : Bool :=
  c ≤ 127

/-- Source is_ascii_host (IPAddress.cpp lines 35-42): every byte of the
host is ASCII. -/
def is_ascii_host (host : List Nat) : Bool :=
  host.all is_ascii_host_char

/-- A byte is a UTF-8 continuation byte (10xxxxxx). -/
def isCont (c : Nat) : Bool :=
  128 ≤ c ∧ c ≤ 191

/-- Second-byte restriction for three-byte UTF-8 sequences: lead 0xE0
requires 0xA0..0xBF (no overlong forms), lead 0xED requires 0x80..0x9F
(no surrogates), other leads require a plain continuation byte. -/
def e0edOk (b c : Nat) : Bool :=
  if b = 224 then 160 ≤ c ∧ c ≤ 191
  else if b = 237 then 128 ≤ c ∧ c ≤ 159
  else isCont c

/-- Second-byte restriction for four-byte UTF-8 sequences: lead 0xF0
requires 0x90..0xBF (no overlong forms), lead 0xF4 requires 0x80..0x8F
(code points at most 0x10FFFF), other leads require a continuation. -/
def f0f4Ok (b c : Nat) : Bool :=
  if b = 240 then 144 ≤ c ∧ c ≤ 191
  else if b = 244 then 128 ≤ c ∧ c ≤ 143
  else isCont c

/-- Modelled from the spec: td check_utf8, deciding whether a byte
string is valid UTF-8 (well-formed sequences, no overlong forms, no
surrogates, code points at most 0x10FFFF). -/
def check_utf8 : List Nat → Bool
  | [] => true
  | b :: rest =>
    if b ≤ 127 then check_utf8 rest
    else
      match rest with
      | [] => false
      | c1 :: rest1 =>
        if 194 ≤ b ∧ b ≤ 223 then isCont c1 && check_utf8 rest1
        else
          match rest1 with
          | [] => false
          | c2 :: rest2 =>
            if 224 ≤ b ∧ b ≤ 239 then e0edOk b c1 && isCont c2 && check_utf8 rest2
            else
              match rest2 with
              | [] => false
              | c3 :: rest3 =>
                if 240 ≤ b ∧ b ≤ 244 then
                  f0f4Ok b c1 && isCont c2 && isCont c3 && check_utf8 rest3
                else false

/-- Modelled from the spec: iterated td next_utf8_unsafe, decoding a
byte string into the sequence of Unicode code points it encodes.  The
behaviour on malformed input is irrelevant: every call site is guarded
by check_utf8 on the whole hostname. -/
def utf8Decode : List Nat → List Nat
  | [] => []
  | b :: rest =>
    if b ≤ 127 then b :: utf8Decode rest
    else
      match rest with
      | [] => []
      | c1 :: rest1 =>
        if b ≤ 223 then ((b % 32) * 64 + c1 % 64) :: utf8Decode rest1
        else
          match rest1 with
          | [] => []
          | c2 :: rest2 =>
            if b ≤ 239 then
              ((b % 16) * 4096 + (c1 % 64) * 64 + c2 % 64) :: utf8Decode rest2
            else
              match rest2 with
              | [] => []
              | c3 :: rest3 =>
                ((b % 8) * 262144 + (c1 % 64) * 4096 + (c2 % 64) * 64 + c3 % 64)
                  :: utf8Decode rest3

/-- Modelled from the spec: td full_split on a delimiter byte, splitting
into parts and keeping empty parts.  idn_to_ascii only reaches it with a
nonempty host (the all-ASCII fast path already returned for empty
input). -/
def full_split (d : Nat) : List Nat → List (List Nat)
  | [] => [[]]
  | b :: rest =>
    if b = d then [] :: full_split d rest
    else
      match full_split d rest with
      | [] => [[b]]
      | head :: tail => (b :: head) :: tail

/-! ## The source punycode encoder (IPAddress.cpp lines 45-124) -/

/-- Source: td clamp on Int values (clamp(v, lo, hi)). -/
def clampI (v lo hi : Int) : Int :=
  if v < lo then lo else if hi < v then hi else v

/-- The variable-length integer emission loop of the source punycode
function (lines 86-99): starting from the running bias, repeatedly add
36 to the bias, clamp to the threshold range [1, 26], and emit
generalized base-36 digits until the remaining value drops below the
threshold.  Digit values 0..25 map to bytes 97..122 (a..z) and values
26..35 map to bytes 48..57 (0..9).  The C++ mutates its running bias
variable, but the caller unconditionally overwrites the bias right after
this loop (lines 111-116), so the mutated bias is dead and the loop is a
pure function of the entry bias and delta.  fuel bounds the iteration
count; every call passes left + 1, which suffices because the remaining
value strictly decreases each iteration (it is divided by at least
10). -/
def tdDigits (fuel : Nat) (bias : Int) (left : Nat) : List Nat :=
  match fuel with
  | 0 => []
  | fuel + 1 =>
    let bias1 := bias + 36
    let t := (clampI bias1 1 26).toNat
    if left < t then [left + 97]
    else
      let left1 := left - t
      let digit := t + left1 % (36 - t)
      (if digit < 26 then digit + 97 else digit - 26 + 48)
        :: tdDigits fuel bias1 (left1 / (36 - t))

/-- The bias-halving loop of the source punycode function (lines
112-115): while delta exceeds 35 * 13 = 455, divide delta by 35 and
subtract 36 from the bias.  fuel bounds the iterations; callers pass
delta + 1, which suffices because delta strictly decreases. -/
def tdHalve (fuel : Nat) (delta : Nat) (bias : Int) : Nat × Int :=
  match fuel with
  | 0 => (delta, bias)
  | fuel + 1 =>
    if 455 < delta then tdHalve fuel (delta / 35) (bias - 36) else (delta, bias)

/-- The bias update of the source punycode function (lines 102-116):
divide delta by 700 on the first adaptation and by 2 afterwards, add
delta / processed, reset the bias to 0, run the halving loop, and
subtract 36 * delta / (delta + 38). -/
def tdAdapt (delta processed : Nat) (isFirst : Bool) : Int :=
  let d1 := if isFirst then delta / 700 else delta / 2
  let d2 := d1 + d1 / processed
  let p := tdHalve (d2 + 1) d2 0
  p.2 - (36 * p.1 / (p.1 + 38) : Nat)

/-- The mutable state of the source punycode main loop: the running
delta (uint32), bias (int), count of processed code points, the
first-adaptation flag, and the output accumulated so far. -/
structure TdSt where
  delta : Nat
  bias : Int
  processed : Nat
  isFirst : Bool
  out : List Nat

/-- One step of the inner for-loop of the source punycode function
(lines 79-119) for a single code point, given the chosen next code
point m: increment delta if the code is below m; if the code equals m,
emit delta as digits, increment processed, adapt the bias, and reset
delta to 0. -/
def tdInner (m : Nat) (st : TdSt) (c : Nat) : TdSt :=
  let st1 := if c < m then { st with delta := st.delta + 1 } else st
  if c = m then
    let out1 := st1.out ++ tdDigits (st1.delta + 1) st1.bias st1.delta
    let processed1 := st1.processed + 1
    { delta := 0
      bias := tdAdapt st1.delta processed1 st1.isFirst
      processed := processed1
      isFirst := false
      out := out1 }
  else st1

/-- The choose-lowest-unprocessed-code scan of the source punycode
function (lines 71-76): the least code strictly above n, with sentinel
0x110000 when none exists. -/
def minAbove (n : Nat) (codes : List Nat) : Nat :=
  codes.foldl (fun acc c => if n < c ∧ c < acc then c else acc) 1114112

/-- The main while-loop of the source punycode function (lines 69-123).
fuel bounds the iterations; the wrapper passes codes.length, which
suffices because each iteration processes every code point equal to the
chosen minimum, of which there is at least one whenever the codes are
genuine Unicode scalar values (below the 0x110000 sentinel). -/
def tdLoop (codes : List Nat) (fuel : Nat) (n : Nat) (st : TdSt) : List Nat :=
  match fuel with
  | 0 => st.out
  | fuel + 1 =>
    if st.processed < codes.length then
      let m := minAbove n codes
      let st1 := { st with delta := st.delta + (m - n - 1) * (st.processed + 1) }
      let st2 := codes.foldl (tdInner m) st1
      tdLoop codes fuel m { st2 with delta := st2.delta + 1 }
    else st.out

/-- Source punycode (IPAddress.cpp lines 45-124): decode the label into
code points, emit every basic (at most 127) code point lowercased in
original order, append a dash when any basic code point was emitted,
then run the delta-encoding loop starting from n = 127, delta = 0,
bias = -72.  The C++ appends onto a caller-supplied accumulator string;
this function returns exactly the appended bytes. -/
def punycode (part : List Nat) : List Nat :=
  let codes := utf8Decode part
  let basic := codes.filter (fun c => c ≤ 127)
  let out0 := basic.map toLowerByte ++ (if 0 < basic.length then [45] else [])
  tdLoop codes codes.length 127
    { delta := 0, bias := -72, processed := basic.length, isFirst := true, out := out0 }

/-! ## The canonical RFC 3492 Bootstring encoder

The reference ("canonical") encoder, written from the RFC 3492 section
6.3 pseudocode with the punycode parameter values base = 36, tmin = 1,
tmax = 26, skew = 38, damp = 700, initial_bias = 72, initial_n = 128.
Basic code points are copied to the output unchanged (RFC 3492 copies
them literally; the canonical output uses the lowercase digit
alphabet).  Arithmetic is on unbounded Nat, so the RFC's
overflow-failure branch never fires. -/

/-- RFC 3492 digit-to-character table: values 0..25 are a..z (bytes
97..122), values 26..35 are 0..9 (bytes 48..57). -/
def digitChar (d : Nat) : Nat :=
  if d < 26 then d + 97 else d - 26 + 48

/-- RFC 3492 threshold function: t(k) = tmin if k is at most bias,
tmax if k is at least bias + tmax, and k - bias otherwise. -/
def rfcT (k bias : Nat) : Nat :=
  if k ≤ bias then 1 else if bias + 26 ≤ k then 26 else k - bias

/-- RFC 3492 digit emission for one delta: for k = 36, 72, ... compute
the threshold t, emit digit t + ((q - t) mod (36 - t)) and divide while
q is at least t, then emit the final digit q.  fuel bounds the loop;
callers pass q + 1. -/
def rfcDigits (fuel : Nat) (k bias q : Nat) : List Nat :=
  match fuel with
  | 0 => []
  | fuel + 1 =>
    let t := rfcT k bias
    if q < t then [digitChar q]
    else digitChar (t + (q - t) % (36 - t)) :: rfcDigits fuel (k + 36) bias ((q - t) / (36 - t))

/-- The division loop of RFC 3492 adapt: while delta exceeds
((base - tmin) * tmax) / 2 = 455, divide delta by base - tmin = 35 and
add base = 36 to k. -/
def rfcHalve (fuel : Nat) (delta k : Nat) : Nat × Nat :=
  match fuel with
  | 0 => (delta, k)
  | fuel + 1 =>
    if 455 < delta then rfcHalve fuel (delta / 35) (k + 36) else (delta, k)

/-- RFC 3492 adapt: delta is divided by damp = 700 the first time and
by 2 afterwards, increased by delta / numpoints, run through the
division loop, and the result is k + 36 * delta / (delta + 38). -/
def adapt (delta numpoints : Nat) (firsttime : Bool) : Nat :=
  let d1 := if firsttime then delta / 700 else delta / 2
  let d2 := d1 + d1 / numpoints
  let p := rfcHalve (d2 + 1) d2 0
  p.2 + 36 * p.1 / (p.1 + 38)

/-- State of the RFC 3492 encoder main loop: delta, bias, the count h
of code points handled so far, and the output. -/
structure RfcSt where
  delta : Nat
  bias : Nat
  h : Nat
  out : List Nat

/-- One step of the RFC 3492 inner loop for one code point c, given the
current n = m and the basic count b: increment delta when c < m; when
c = m, encode delta as digits, set bias = adapt(delta, h + 1, h = b),
reset delta, increment h. -/
def rfcInner (m b : Nat) (st : RfcSt) (c : Nat) : RfcSt :=
  let st1 := if c < m then { st with delta := st.delta + 1 } else st
  if c = m then
    { delta := 0
      bias := adapt st1.delta (st1.h + 1) (st1.h == b)
      h := st1.h + 1
      out := st1.out ++ rfcDigits (st1.delta + 1) 36 st1.bias st1.delta }
  else st1

/-- The least code point of the input that is at least n, with sentinel
0x110000 when none exists (RFC 3492: let m = the minimum code point
greater than or equal to n). -/
def minAtLeast (n : Nat) (codes : List Nat) : Nat :=
  codes.foldl (fun acc c => if n ≤ c ∧ c < acc then c else acc) 1114112

/-- Main loop of the RFC 3492 encoder: while h < length(input), pick
m = minAtLeast n, add (m - n) * (h + 1) to delta, run the inner loop
over all code points, then increment delta and set n = m + 1.  fuel
bounds the iterations; the wrapper passes the code point count, which
suffices because each iteration handles at least the code points equal
to m. -/
def rfcLoop (codes : List Nat) (b : Nat) (fuel : Nat) (n : Nat) (st : RfcSt) : List Nat :=
  match fuel with
  | 0 => st.out
  | fuel + 1 =>
    if st.h < codes.length then
      let m := minAtLeast n codes
      let st1 := { st with delta := st.delta + (m - n) * (st.h + 1) }
      let st2 := codes.foldl (rfcInner m b) st1
      rfcLoop codes b fuel (m + 1) { st2 with delta := st2.delta + 1 }
    else st.out

/-- Lowercasing of the basic (ASCII) code points of a label, leaving
non-basic code points untouched: the case folding the source punycode
applies to the code points it copies. -/
def lowerBasic (c : Nat) : Nat :=
  if c ≤ 127 then toLowerByte c else c

/-- The canonical RFC 3492 punycode encoding of a sequence of code
points: copy the basic code points in order, append the dash delimiter
when any basic code point exists, then delta-encode the rest starting
from n = 128, delta = 0, bias = 72. -/
def rfcPunycode (codes : List Nat) : List Nat :=
  let basic := codes.filter (fun c => c ≤ 127)
  let out0 := basic ++ (if 0 < basic.length then [45] else [])
  rfcLoop codes basic.length codes.length 128
    { delta := 0, bias := 72, h := basic.length, out := out0 }

/-! ## idn_to_ascii (IPAddress.cpp lines 127-171, non-Windows branch) -/

/-- The error taxonomy of the file, named after the specification's
error kinds; each constructor corresponds to one Status::Error site of
the source. -/
inductive Err where
  | emptyHost
  | malformedHostPort
  | invalidEncoding
  | hostnameTooLong
  | resolutionFailed (detail : List Nat)
  | noAddressFound
  | invalidPort (port : Int)
  | invalidLiteral
  | systemError (code : Int)
  | unknownFamily
deriving DecidableEq

/-- Result type mirroring td Result and Status. -/
inductive Res (α : Type) where
  | ok (val : α)
  | err (e : Err)
deriving DecidableEq

/-- Per-label encoding step of the idn_to_ascii loop (lines 155-167):
an all-ASCII label is appended verbatim, any other label is appended as
the marker xn-- (bytes 120, 110, 45, 45) followed by its punycode
encoding. -/
def encodeLabel (part : List Nat) : List Nat :=
  if is_ascii_host part then part else [120, 110, 45, 45] ++ punycode part

/-- Tail of the label-joining loop of idn_to_ascii after the first
label: each further label is preceded by a dot (byte 46). -/
def idnJoinGo : List (List Nat) → List Nat
  | [] => []
  | p :: ps => 46 :: (encodeLabel p ++ idnJoinGo ps)

/-- The label-joining loop of idn_to_ascii (lines 152-168): encode each
label and rejoin with dots, the first label without a leading dot. -/
def idnJoin : List (List Nat) → List Nat
  | [] => []
  | p :: ps => encodeLabel p ++ idnJoinGo ps

/-- Source idn_to_ascii (lines 127-171): all-ASCII hosts take the fast
path and are returned lowercased; otherwise the host must be valid
UTF-8 and shorter than 255 * 4 = 1020 bytes, and is split on dots with
each label encoded. -/
def idn_to_ascii (host : List Nat) : Res (List Nat) :=
  if is_ascii_host host then .ok (to_lower host)
  else if !check_utf8 host then .err .invalidEncoding
  else if 255 * 4 ≤ host.length then .err .hostnameTooLong
  else .ok (idnJoin (full_split 46 host))

/-! ## The IPAddress value type (IPAddress.cpp lines 173-532)

The C++ object holds an is_valid_ flag and a union of sockaddr_in /
sockaddr_in6.  When is_valid_ is false the payload is unobservable
through the class interface (every accessor is guarded by CHECK or by
an explicit validity test), so the model collapses all invalid states
into one constructor.  A valid state carries the address family tag,
the 16-bit port field exactly as stored in the sockaddr (network byte
order, written by htons), and the raw address bytes (4 or 16).

Byte order: the initializers store htons(port) and get_port returns
ntohs(sin_port).  This model fixes the little-endian host layout that
the program targets (x86-64 / AArch64 Linux and macOS), on which htons
and ntohs swap the two bytes of a 16-bit value; on a big-endian host
both are the identity. -/

/-- The 16-bit byte swap performed by htons and ntohs on a little-endian
host (the value is first truncated to 16 bits, matching the
static_cast to uint16 at every call site). -/
def htons16 (p : Nat) : Nat :=
  (p % 256) * 256 + (p / 256) % 256

/-- ntohs is the same byte swap (it is an involution). -/
def ntohs16 (p : Nat) : Nat :=
  (p % 256) * 256 + (p / 256) % 256

/-- AF_INET family tag (Linux value 2). -/
def afInet : Nat := 2

/-- AF_INET6 family tag (Linux value 10). -/
def afInet6 : Nat := 10

/-- The NetworkAddress value: invalid, or a family-tagged payload of
port field (as stored, network byte order) plus raw address bytes. -/
inductive IPAddress where
  | invalid
  | v4 (portN : Nat) (addr : List Nat)
  | v6 (portN : Nat) (addr : List Nat)
deriving DecidableEq

/-- Source is_valid (lines 176-178). -/
def is_valid : IPAddress → Bool
  | .invalid => false
  | _ => true

/-- Source get_address_family (lines 198-200), only ever called on
valid addresses (get_sockaddr CHECKs validity). -/
def get_address_family : IPAddress → Nat
  | .invalid => 0
  | .v4 _ _ => afInet
  | .v6 _ _ => afInet6

/-- Source get_port (lines 447-461): 0 for an invalid address, else
ntohs of the stored port field. -/
def get_port : IPAddress → Nat
  | .invalid => 0
  | .v4 pn _ => ntohs16 pn
  | .v6 pn _ => ntohs16 pn

/-- Source set_port (lines 463-476): store htons(uint16(port)) into the
port field of the current family.  The C++ CHECKs is_valid() and aborts
on an invalid instance (an unrecoverable contract violation, per the
spec); the model leaves the invalid state unchanged and no claim
exercises that branch.  The int argument is truncated to uint16, so
negative and out-of-range values wrap modulo 65536. -/
def set_port (port : Int) (a : IPAddress) : IPAddress :=
  match a with
  | .invalid => .invalid
  | .v4 _ b => .v4 (htons16 (port % 65536).toNat) b
  | .v6 _ b => .v6 (htons16 (port % 65536).toNat) b

/-- Source init_ipv4_any (lines 238-243): valid, family AF_INET,
address INADDR_ANY (0.0.0.0), port field 0. -/
def init_ipv4_any : IPAddress :=
  .v4 0 [0, 0, 0, 0]

/-- Source init_ipv6_any (lines 245-250): valid, family AF_INET6,
address in6addr_any, port field 0. -/
def init_ipv6_any : IPAddress :=
  .v6 0 (List.replicate 16 0)

/-- Result of the platform inet_pton collaborator for one textual
literal: 1 with parsed bytes, 0 (malformed input), or -1 with an OS
error code. -/
inductive PtonRes where
  | ok (bytes : List Nat)
  | noAddr
  | syserr (code : Int)
deriving DecidableEq

/-- Source init_ipv4_port (lines 274-290).  The instance is first
invalidated; a port outside [1, 65535] is rejected; then the literal is
handed to the inet_pton collaborator (injected as the pton argument):
0 yields the invalid-literal error, -1 a wrapped system error, success
stores family AF_INET, htons(port) and the parsed 4 address bytes.
Returns the Status together with the new object state. -/
def init_ipv4_port (pton : List Nat → PtonRes) (ipv4 : List Nat) (port : Int)
    (_prior : IPAddress) : Res Unit × IPAddress :=
  if port ≤ 0 ∨ 65536 ≤ port then (.err (.invalidPort port), .invalid)
  else
    match pton ipv4 with
    | .noAddr => (.err .invalidLiteral, .invalid)
    | .syserr c => (.err (.systemError c), .invalid)
    | .ok bytes => (.ok (), .v4 (htons16 port.toNat) bytes)

/-- Source init_ipv6_port (lines 252-268), same shape as
init_ipv4_port with family AF_INET6 and 16 address bytes. -/
def init_ipv6_port (pton : List Nat → PtonRes) (ipv6 : List Nat) (port : Int)
    (_prior : IPAddress) : Res Unit × IPAddress :=
  if port ≤ 0 ∨ 65536 ≤ port then (.err (.invalidPort port), .invalid)
  else
    match pton ipv6 with
    | .noAddr => (.err .invalidLiteral, .invalid)
    | .syserr c => (.err (.systemError c), .invalid)
    | .ok bytes => (.ok (), .v6 (htons16 port.toNat) bytes)

/-! ## EndpointResolver (IPAddress.cpp lines 292-357) -/

/-- One candidate returned by the getaddrinfo collaborator: the
ai_family tag and the port field / address bytes of its ai_addr. -/
structure AddrInfo where
  family : Nat
  portN : Nat
  bytes : List Nat
deriving DecidableEq

/-- Source init_sockaddr (lines 359-373): copy a candidate whose family
is AF_INET6 or AF_INET into the object, anything else is the
unknown-family error. -/
def init_sockaddr (c : AddrInfo) : Res Unit × IPAddress :=
  if c.family = afInet6 then (.ok (), .v6 c.portN c.bytes)
  else if c.family = afInet then (.ok (), .v4 c.portN c.bytes)
  else (.err .unknownFamily, .invalid)

/-- The candidate-selection loop of init_host_port (lines 328-344),
with best the current best candidate (best_info).  For each candidate
in order: an AF_INET candidate is taken when IPv6 is not preferred or
no candidate is held yet, and scanning stops on it when IPv6 is not
preferred; symmetrically for AF_INET6.  Other families are skipped. -/
def select_best (prefer : Bool) (best : Option AddrInfo) : List AddrInfo → Option AddrInfo
  | [] => best
  | c :: rest =>
    if c.family = afInet ∧ (prefer = false ∨ best = none) then
      if prefer = false then some c
      else select_best prefer (some c) rest
    else if c.family = afInet6 ∧ (prefer = true ∨ best = none) then
      if prefer = true then some c
      else select_best prefer (some c) rest
    else select_best prefer best rest

/-- Outcome of the getaddrinfo collaborator: a candidate list, or a
nonzero error with its gai_strerror diagnostic text. -/
inductive ResolveRes where
  | ok (infos : List AddrInfo)
  | gaiError (msg : List Nat)
deriving DecidableEq

/-- The getaddrinfo collaborator: maps an (encoded host, service
string) pair to a resolution outcome. -/
def Resolver : Type :=
  List Nat → List Nat → ResolveRes

/-- Source init_host_port with a string port (lines 297-349): reject an
empty host, encode the host with idn_to_ascii, invoke the resolver
collaborator, surface its failure as the resolution-failed error with
the diagnostic text, select the best candidate (no candidate of either
internet family is the no-address-found error) and copy it with
init_sockaddr.  Returns the Status and the final object state; on the
error paths before init_sockaddr the C++ object is untouched, so the
prior state is returned there. -/
def init_host_port (resolver : Resolver) (host port : List Nat) (prefer : Bool)
    (prior : IPAddress) : Res Unit × IPAddress :=
  if host = [] then (.err .emptyHost, prior)
  else
    match idn_to_ascii host with
    | .err e => (.err e, prior)
    | .ok ahost =>
      match resolver ahost port with
      | .gaiError msg => (.err (.resolutionFailed msg), prior)
      | .ok infos =>
        match select_best prefer none infos with
        | none => (.err .noAddressFound, prior)
        | some c => init_sockaddr c

/-- Decimal digits accumulator for to_string on Nat; fuel bounds the
digit count and callers pass n + 1, which suffices since n / 10
strictly decreases. -/
def natDecimalAux : Nat → Nat → List Nat → List Nat
  | 0, _, acc => acc
  | fuel + 1, n, acc =>
    if n < 10 then (n + 48) :: acc
    else natDecimalAux fuel (n / 10) ((n % 10 + 48) :: acc)

/-- Decimal rendering of a Nat as ASCII bytes. -/
def natDecimal (n : Nat) : List Nat :=
  natDecimalAux (n + 1) n []

/-- Modelled from the spec: td to_string on an int (decimal rendering,
with a leading minus byte 45 for negative values). -/
def intToDecimal (p : Int) : List Nat :=
  if p < 0 then 45 :: natDecimal (-p).toNat else natDecimal p.toNat

/-- Source init_host_port with an integer port (lines 292-295): render
the port in decimal and delegate to the string-port variant.  No port
validation happens here. -/
def init_host_port_int (resolver : Resolver) (host : List Nat) (port : Int)
    (prefer : Bool) (prior : IPAddress) : Res Unit × IPAddress :=
  init_host_port resolver host (intToDecimal port) prefer prior

/-! ## Equality and ordering (IPAddress.cpp lines 478-520) -/

/-- Strict lexicographic comparison of byte lists, the result of
memcmp < 0 on two equal-length unsigned byte arrays. -/
def lexLt : List Nat → List Nat → Bool
  | [], _ => false
  | _ :: _, [] => false
  | x :: xs, y :: ys => decide (x < y) || (x == y && lexLt xs ys)

/-- Source operator== (lines 478-496): both invalid means equal, one
invalid means unequal, different families unequal, same family equal
iff the stored port field and the raw address bytes coincide. -/
def ipEq (a b : IPAddress) : Bool :=
  match a, b with
  | .invalid, .invalid => true
  | .invalid, _ => false
  | _, .invalid => false
  | .v4 p1 b1, .v4 p2 b2 => p1 == p2 && b1 == b2
  | .v6 p1 b1, .v6 p2 b2 => p1 == p2 && b1 == b2
  | _, _ => false

/-- Source operator< (lines 498-520): with an invalid operand the
result is (a invalid and b valid); different families compare by the
family tag (AF_INET = 2 before AF_INET6 = 10); within a family by the
stored port field (network byte order), then by memcmp of the raw
address bytes. -/
def ipLt (a b : IPAddress) : Bool :=
  match a, b with
  | .invalid, .invalid => false
  | .invalid, _ => true
  | _, .invalid => false
  | .v4 p1 b1, .v4 p2 b2 => if p1 = p2 then lexLt b1 b2 else decide (p1 < p2)
  | .v6 p1 b1, .v6 p2 b2 => if p1 = p2 then lexLt b1 b2 else decide (p1 < p2)
  | .v4 _ _, .v6 _ _ => true
  | .v6 _ _, .v4 _ _ => false

/-- Well-formedness of a model state: the address payload has the byte
width dictated by the family tag (4 or 16).  Every initializer of the
source establishes it (inet_pton writes exactly sizeof bytes and
init_sockaddr CHECKs the descriptor length). -/
def wf : IPAddress → Prop
  | .invalid => True
  | .v4 _ b => b.length = 4
  | .v6 _ b => b.length = 16

/-! ## Shared helper lemmas -/

theorem idn_ascii_fast (h : List Nat) (ha : is_ascii_host h = true) :
    idn_to_ascii h = .ok (to_lower h) := by
  simp [idn_to_ascii, ha]

theorem check_utf8_cons_low (b : Nat) (hb : b ≤ 127) (l : List Nat) :
    check_utf8 (b :: l) = check_utf8 l := by
  rw [check_utf8.eq_def]
  simp [hb]

theorem ascii_cons (b : Nat) (l : List Nat) :
    is_ascii_host (b :: l) = (is_ascii_host_char b && is_ascii_host l) := rfl

theorem check_utf8_rep97 (n : Nat) : check_utf8 (List.replicate n 97) = true := by
  induction n with
  | zero => rfl
  | succ n ih =>
    rw [List.replicate_succ, check_utf8_cons_low 97 (by omega)]
    exact ih

theorem ascii_rep97 (n : Nat) : is_ascii_host (List.replicate n 97) = true := by
  induction n with
  | zero => rfl
  | succ n ih =>
    rw [List.replicate_succ, ascii_cons]
    simpa [is_ascii_host_char] using ih

theorem to_lower_rep97 (n : Nat) :
    to_lower (List.replicate n 97) = List.replicate n 97 := by
  simp [to_lower, List.map_replicate, toLowerByte]

/-! ## Claims about idn_to_ascii -/

/-- C2: idn_to_ascii applied to the hostname buecher.de (bytes of
b, u-umlaut, c, h, e, r, dot, d, e) returns xn--bcher-kva.de: the
non-ASCII label is encoded as the xn-- marker plus bcher-kva, the ASCII
label de is copied, and the labels are rejoined with a dot. -/
theorem encode_buecher_de :
    idn_to_ascii [98, 195, 188, 99, 104, 101, 114, 46, 100, 101] =
      .ok [120, 110, 45, 45, 98, 99, 104, 101, 114, 45, 107, 118, 97, 46, 100, 101] := by
  decide

/-- C6: every all-ASCII hostname takes the fast path of idn_to_ascii
and is returned as exactly the lowercased input, with no other
transformation. -/
theorem ascii_host_lowercased (h : List Nat) (ha : is_ascii_host h = true) :
    idn_to_ascii h = .ok (to_lower h) :=
  idn_ascii_fast h ha

/-- Witness for ascii_host_lowercased at the host AbC. -/
theorem ascii_host_lowercased_witness :
    is_ascii_host [65, 98, 67] = true ∧
    idn_to_ascii [65, 98, 67] = .ok [97, 98, 99] :=
  ⟨by decide, (ascii_host_lowercased [65, 98, 67] (by decide)).trans (by decide)⟩

/-- C3 (amended): a hostname that is not entirely ASCII and is valid
UTF-8, with byte length at least 255 * 4 = 1020, is rejected with the
hostname-too-long error.  (The length ceiling sits after the all-ASCII
fast path and the UTF-8 validity check, so it only governs this
case.) -/
theorem long_host_rejected (h : List Nat) (h1 : is_ascii_host h = false)
    (h2 : check_utf8 h = true) (h3 : 1020 ≤ h.length) :
    idn_to_ascii h = .err .hostnameTooLong := by
  have hlen : 255 * 4 ≤ h.length := by omega
  simp only [idn_to_ascii, h1, h2, hlen, Bool.not_true, Bool.false_eq_true,
    if_false, if_true, Bool.false_eq_true]

/-- Counterexample to C3 as stated: a hostname of 2000 bytes is not
necessarily rejected.  An all-ASCII hostname of 2000 bytes takes the
fast path, which precedes the length check, and idn_to_ascii succeeds,
returning the (lowercased) input. -/
theorem long_ascii_host_accepted :
    1020 ≤ (List.replicate 2000 97 : List Nat).length ∧
    idn_to_ascii (List.replicate 2000 97) = .ok (List.replicate 2000 97) := by
  refine ⟨by rw [List.length_replicate]; omega, ?_⟩
  rw [idn_ascii_fast _ (ascii_rep97 2000), to_lower_rep97]

/-- A 1020-byte hostname consisting of one u-umlaut followed by 1018
ASCII letters. -/
def longHost : List Nat := 195 :: 188 :: List.replicate 1018 97

theorem uml_head_not_ascii (n : Nat) :
    is_ascii_host (195 :: 188 :: List.replicate n 97) = false := by
  rw [ascii_cons]
  simp [is_ascii_host_char]

theorem uml_head_utf8 (n : Nat) :
    check_utf8 (195 :: 188 :: List.replicate n 97) = true := by
  rw [check_utf8.eq_def]
  simp [isCont, check_utf8_rep97]

/-- Witness for long_host_rejected at a concrete 1020-byte non-ASCII
valid-UTF-8 hostname. -/
theorem long_host_rejected_witness :
    is_ascii_host longHost = false ∧ check_utf8 longHost = true ∧
    1020 ≤ longHost.length ∧ idn_to_ascii longHost = .err .hostnameTooLong := by
  have h1 : is_ascii_host longHost = false := uml_head_not_ascii 1018
  have h2 : check_utf8 longHost = true := uml_head_utf8 1018
  have h3 : 1020 ≤ longHost.length := by
    show 1020 ≤ (195 :: 188 :: List.replicate 1018 97).length
    rw [List.length_cons, List.length_cons, List.length_replicate]
  exact ⟨h1, h2, h3, long_host_rejected longHost h1 h2 h3⟩

/-- C7: when the host contains a non-ASCII byte (so the whole-host fast
path is not taken) the output is the dot-rejoin of the per-label
encodings, every fully-ASCII label is carried to the output verbatim
with its original case, and lowercasing happens only on the all-ASCII
whole-host fast path. -/
theorem nonascii_host_labels (h : List Nat) (h1 : is_ascii_host h = false)
    (h2 : check_utf8 h = true) (h3 : h.length < 1020) :
    idn_to_ascii h = .ok (idnJoin (full_split 46 h)) ∧
    (∀ part ∈ full_split 46 h, is_ascii_host part = true → encodeLabel part = part) ∧
    (∀ g, is_ascii_host g = true → idn_to_ascii g = .ok (to_lower g)) := by
  refine ⟨?_, ?_, fun g hg => idn_ascii_fast g hg⟩
  · have hlen : ¬ 255 * 4 ≤ h.length := by omega
    simp [idn_to_ascii, h1, h2, hlen]
  · intro part _ hp
    simp [encodeLabel, hp]

/-- Witness for nonascii_host_labels at the host A.u-umlaut: the ASCII
label A keeps its uppercase form in the output. -/
theorem nonascii_host_labels_witness :
    idn_to_ascii [65, 46, 195, 188] = .ok [65, 46, 120, 110, 45, 45, 116, 100, 97] ∧
    encodeLabel [65] = [65] := by
  have h := nonascii_host_labels [65, 46, 195, 188] (by decide) (by decide) (by decide)
  exact ⟨h.1.trans (by decide), h.2.1 [65] (by decide) (by decide)⟩

/-! ## Claims about the literal initializers -/

/-- C10: whenever init_ipv4_port or init_ipv6_port returns an error
(invalid port, malformed literal, or system error), the instance is
left invalid, regardless of the state it held before the call. -/
theorem init_port_failure_invalidates :
    (∀ pton s p prior e, (init_ipv4_port pton s p prior).1 = .err e →
        (init_ipv4_port pton s p prior).2 = .invalid) ∧
    (∀ pton s p prior e, (init_ipv6_port pton s p prior).1 = .err e →
        (init_ipv6_port pton s p prior).2 = .invalid) := by
  constructor <;>
    (intro pton s p prior e hf
     by_cases hp : p ≤ 0 ∨ 65536 ≤ p)
  · simp [init_ipv4_port, hp]
  · cases hpt : pton s <;> simp [init_ipv4_port, hp, hpt] at hf ⊢
  · simp [init_ipv6_port, hp]
  · cases hpt : pton s <;> simp [init_ipv6_port, hp, hpt] at hf ⊢

/-- Witness for init_port_failure_invalidates: a failing
re-initialization (port 0) of a previously valid address leaves it
invalid. -/
theorem init_port_failure_invalidates_witness :
    (init_ipv4_port (fun _ => .ok [1, 2, 3, 4]) [48] 0 (.v4 5 [9, 9, 9, 9])).2
      = .invalid :=
  init_port_failure_invalidates.1 (fun _ => .ok [1, 2, 3, 4]) [48] 0
    (.v4 5 [9, 9, 9, 9]) (.invalidPort 0) (by decide)

/-! ## Candidate selection (claims C4 and C5) -/

theorem select_skip (prefer : Bool) (best : Option AddrInfo) (l : List AddrInfo)
    (h : ∀ c ∈ l, c.family ≠ afInet ∧ c.family ≠ afInet6) :
    select_best prefer best l = best := by
  induction l generalizing best with
  | nil => rfl
  | cons c rest ih =>
    have hc := h c (List.mem_cons_self c rest)
    have h2 : ¬(c.family = afInet ∧ (prefer = false ∨ best = none)) :=
      fun hh => hc.1 hh.1
    have h3 : ¬(c.family = afInet6 ∧ (prefer = true ∨ best = none)) :=
      fun hh => hc.2 hh.1
    simp only [select_best, h2, h3, if_false]
    exact ih best fun d hd => h d (List.mem_cons_of_mem c hd)

theorem af6_ne_af4 : afInet6 ≠ afInet := by decide

theorem af4_ne_af6 : afInet ≠ afInet6 := by decide

theorem af6_beq_af4 : (afInet6 == afInet) = false := by decide

theorem af4_beq_af6 : (afInet == afInet6) = false := by decide

theorem select_false_acc (l : List AddrInfo) (b : AddrInfo) :
    select_best false (some b) l =
      ((l.find? fun c => c.family == afInet).orElse fun _ => some b) := by
  induction l with
  | nil => rfl
  | cons c rest ih =>
    by_cases hc : c.family = afInet
    · have hcb : (c.family == afInet) = true := by simp [hc]
      simp [select_best, hc, List.find?, hcb, Option.orElse]
    · have hcb : (c.family == afInet) = false := by simp [hc]
      have h3 : ¬(c.family = afInet6 ∧
          ((false : Bool) = true ∨ (some b : Option AddrInfo) = none)) := by simp
      simp [select_best, hc, h3, List.find?, hcb, ih]

theorem select_true_acc (l : List AddrInfo) (b : AddrInfo) :
    select_best true (some b) l =
      ((l.find? fun c => c.family == afInet6).orElse fun _ => some b) := by
  induction l with
  | nil => rfl
  | cons c rest ih =>
    have h2 : ¬(c.family = afInet ∧
        ((true : Bool) = false ∨ (some b : Option AddrInfo) = none)) := by simp
    by_cases hc : c.family = afInet6
    · have hcb : (c.family == afInet6) = true := by simp [hc]
      simp [select_best, hc, h2, List.find?, hcb, Option.orElse]
    · have hcb : (c.family == afInet6) = false := by simp [hc]
      simp [select_best, hc, h2, List.find?, hcb, ih]

theorem select_false_none (l : List AddrInfo) :
    select_best false none l =
      ((l.find? fun c => c.family == afInet).orElse fun _ =>
        l.find? fun c => c.family == afInet6) := by
  induction l with
  | nil => rfl
  | cons c rest ih =>
    by_cases hc : c.family = afInet
    · have hcb : (c.family == afInet) = true := by simp [hc]
      simp [select_best, hc, List.find?, hcb, Option.orElse]
    · have hcb : (c.family == afInet) = false := by simp [hc]
      by_cases hc6 : c.family = afInet6
      · have hcb6 : (c.family == afInet6) = true := by simp [hc6]
        simp [select_best, hc, hc6, List.find?, hcb, hcb6, select_false_acc,
          af6_ne_af4, af6_beq_af4]
      · have hcb6 : (c.family == afInet6) = false := by simp [hc6]
        simp [select_best, hc, hc6, List.find?, hcb, hcb6, ih]

theorem select_true_none (l : List AddrInfo) :
    select_best true none l =
      ((l.find? fun c => c.family == afInet6).orElse fun _ =>
        l.find? fun c => c.family == afInet) := by
  induction l with
  | nil => rfl
  | cons c rest ih =>
    by_cases hc6 : c.family = afInet6
    · have hc : c.family ≠ afInet := by
        rw [hc6]
        decide
      have hcb6 : (c.family == afInet6) = true := by simp [hc6]
      simp [select_best, hc, hc6, List.find?, hcb6, Option.orElse,
        af6_ne_af4, af6_beq_af4]
    · have hcb6 : (c.family == afInet6) = false := by simp [hc6]
      by_cases hc : c.family = afInet
      · have hcb : (c.family == afInet) = true := by simp [hc]
        simp [select_best, hc, hc6, List.find?, hcb, hcb6, select_true_acc,
          af4_ne_af6, af4_beq_af6]
      · have hcb : (c.family == afInet) = false := by simp [hc]
        simp [select_best, hc, hc6, List.find?, hcb, hcb6, ih]

theorem select_false_stop (c : AddrInfo) (hc : c.family = afInet)
    (l1 l2 l2' : List AddrInfo) (best : Option AddrInfo) :
    select_best false best (l1 ++ c :: l2) = select_best false best (l1 ++ c :: l2') := by
  induction l1 generalizing best with
  | nil => simp [select_best, hc]
  | cons d rest ih =>
    simp only [List.cons_append, select_best]
    by_cases hd : d.family = afInet ∧ ((false : Bool) = false ∨ best = none)
    · simp [hd]
    · by_cases hd6 : d.family = afInet6 ∧ ((false : Bool) = true ∨ best = none)
      · simp [hd, hd6, ih]
      · simp [hd, hd6, ih]

theorem select_true_stop (c : AddrInfo) (hc : c.family = afInet6)
    (l1 l2 l2' : List AddrInfo) (best : Option AddrInfo) :
    select_best true best (l1 ++ c :: l2) = select_best true best (l1 ++ c :: l2') := by
  induction l1 generalizing best with
  | nil =>
    have hd : ¬(c.family = afInet ∧ ((true : Bool) = false ∨ best = none)) := by
      rw [hc]
      intro hh
      exact absurd hh.1 (by decide)
    have h6 : c.family = afInet6 ∧ ((true : Bool) = true ∨ best = none) :=
      ⟨hc, Or.inl rfl⟩
    simp [select_best, hd, h6, af6_ne_af4]
  | cons d rest ih =>
    simp only [List.cons_append, select_best]
    by_cases hd : d.family = afInet ∧ ((true : Bool) = false ∨ best = none)
    · simp [hd, ih]
    · by_cases hd6 : d.family = afInet6 ∧ ((true : Bool) = true ∨ best = none)
      · simp [hd, hd6, af6_ne_af4]
      · simp [hd, hd6, ih]

/-- C4: the selection policy of init_host_port over the resolver's
candidate list.  With prefer_v6 false, the first IPv4 candidate in list
order is selected, with the first IPv6 candidate only as a fallback when
no IPv4 candidate exists; the scan stops at the first IPv4 candidate
(the list beyond it is irrelevant); symmetrically with prefer_v6 true;
the selected candidate is the one handed to init_sockaddr; and when the
list has no candidate of either internet family the call fails with the
no-address-found error. -/
theorem host_port_selection_policy :
    (∀ l, select_best false none l =
      ((l.find? fun c => c.family == afInet).orElse fun _ =>
        l.find? fun c => c.family == afInet6)) ∧
    (∀ l, select_best true none l =
      ((l.find? fun c => c.family == afInet6).orElse fun _ =>
        l.find? fun c => c.family == afInet)) ∧
    (∀ c l1 l2 l2', c.family = afInet →
      select_best false none (l1 ++ c :: l2) = select_best false none (l1 ++ c :: l2')) ∧
    (∀ c l1 l2 l2', c.family = afInet6 →
      select_best true none (l1 ++ c :: l2) = select_best true none (l1 ++ c :: l2')) ∧
    (∀ (resolver : Resolver) host port prefer prior l c,
      host ≠ [] → is_ascii_host host = true →
      resolver (to_lower host) port = .ok l →
      select_best prefer none l = some c →
      init_host_port resolver host port prefer prior = init_sockaddr c) ∧
    (∀ (resolver : Resolver) host port prefer prior l,
      host ≠ [] → is_ascii_host host = true →
      resolver (to_lower host) port = .ok l →
      (∀ c ∈ l, c.family ≠ afInet ∧ c.family ≠ afInet6) →
      (init_host_port resolver host port prefer prior).1 = .err .noAddressFound) := by
  refine ⟨select_false_none, select_true_none,
    fun c l1 l2 l2' hc => select_false_stop c hc l1 l2 l2' none,
    fun c l1 l2 l2' hc => select_true_stop c hc l1 l2 l2' none, ?_, ?_⟩
  · intro resolver host port prefer prior l c hne ha hres hsel
    simp [init_host_port, hne, idn_ascii_fast host ha, hres, hsel]
  · intro resolver host port prefer prior l hne ha hres hfam
    have hsel : select_best prefer none l = none := select_skip prefer none l hfam
    simp [init_host_port, hne, idn_ascii_fast host ha, hres, hsel]

/-- An IPv4 candidate used by witnesses. -/
def c4ex : AddrInfo := ⟨afInet, 80, [1, 2, 3, 4]⟩

/-- An IPv6 candidate used by witnesses. -/
def c6ex : AddrInfo := ⟨afInet6, 80, List.replicate 16 0⟩

/-- Witness for host_port_selection_policy: a mock resolver returning
one IPv4 and one IPv6 candidate yields the IPv4 one with prefer_v6
false and the IPv6 one with prefer_v6 true, and a list with no internet
family at all gives the no-address-found error. -/
theorem host_port_selection_policy_witness :
    select_best false none [c4ex, c6ex] = some c4ex ∧
    select_best true none [c4ex, c6ex] = some c6ex ∧
    init_host_port (fun _ _ => .ok [c4ex, c6ex]) [97] [56, 48] false .invalid
      = (.ok (), .v4 80 [1, 2, 3, 4]) ∧
    (init_host_port (fun _ _ => .ok [⟨99, 0, []⟩]) [97] [56, 48] false .invalid).1
      = .err .noAddressFound := by
  have h := host_port_selection_policy
  refine ⟨(h.1 [c4ex, c6ex]).trans (by decide),
    (h.2.1 [c4ex, c6ex]).trans (by decide), ?_, ?_⟩
  · exact (h.2.2.2.2.1 (fun _ _ => .ok [c4ex, c6ex]) [97] [56, 48] false .invalid
      [c4ex, c6ex] c4ex (by decide) (by decide) rfl (by decide)).trans (by decide)
  · exact h.2.2.2.2.2 (fun _ _ => .ok [⟨99, 0, []⟩]) [97] [56, 48] false .invalid
      [⟨99, 0, []⟩] (by decide) (by decide) rfl (by decide)

/-- Counterexample to C5 as stated: the integer-port init_host_port
variant performs no port validation.  With port 70000 and host a.com it
hands the decimal string 70000 to the resolver collaborator: when the
resolver rejects the out-of-range service (as getaddrinfo does) the
failure is the resolution-failed error, not the invalid-port error, and
with a resolver that returns a candidate the call even succeeds. -/
theorem numeric_port_unvalidated :
    (init_host_port_int (fun _ _ => .gaiError [69, 65, 73]) [97, 46, 99, 111, 109]
        70000 false .invalid).1 = .err (.resolutionFailed [69, 65, 73]) ∧
    Err.resolutionFailed [69, 65, 73] ≠ Err.invalidPort 70000 ∧
    (init_host_port_int (fun _ _ => .ok [c4ex]) [97, 46, 99, 111, 109]
        70000 false .invalid).1 = .ok () := by
  exact ⟨by decide, by decide, by decide⟩

/-- C5 (amended): port-range validation lives in the literal
initializers, not in the numeric-port resolve variant: init_ipv4_port
and init_ipv6_port reject any port outside [1, 65535] with the
invalid-port error (leaving the instance invalid), while the
integer-port init_host_port performs no validation and delegates the
decimal rendering of the port to the string-port variant; resolving an
empty host fails with the empty-host error. -/
theorem port_validation_in_literal_inits :
    (∀ pton s p prior, p ≤ 0 ∨ 65536 ≤ p →
      init_ipv4_port pton s p prior = (.err (.invalidPort p), .invalid)) ∧
    (∀ pton s p prior, p ≤ 0 ∨ 65536 ≤ p →
      init_ipv6_port pton s p prior = (.err (.invalidPort p), .invalid)) ∧
    (∀ (resolver : Resolver) host p prefer prior,
      init_host_port_int resolver host p prefer prior =
        init_host_port resolver host (intToDecimal p) prefer prior) ∧
    (∀ (resolver : Resolver) port prefer prior,
      (init_host_port resolver [] port prefer prior).1 = .err .emptyHost) := by
  refine ⟨?_, ?_, fun _ _ _ _ _ => rfl, ?_⟩
  · intro pton s p prior hp
    simp [init_ipv4_port, hp]
  · intro pton s p prior hp
    simp [init_ipv6_port, hp]
  · intro resolver port prefer prior
    simp [init_host_port]

/-- Witness for port_validation_in_literal_inits at ports 0 and 70000
and at the empty host. -/
theorem port_validation_in_literal_inits_witness :
    init_ipv4_port (fun _ => .ok [1, 2, 3, 4]) [48] 0 .invalid
      = (.err (.invalidPort 0), .invalid) ∧
    init_ipv6_port (fun _ => .ok (List.replicate 16 0)) [48] 70000 .invalid
      = (.err (.invalidPort 70000), .invalid) ∧
    (init_host_port (fun _ _ => .ok [c4ex]) [] [56, 48] false .invalid).1
      = .err .emptyHost := by
  have h := port_validation_in_literal_inits
  exact ⟨h.1 (fun _ => .ok [1, 2, 3, 4]) [48] 0 .invalid (by omega),
    h.2.1 (fun _ => .ok (List.replicate 16 0)) [48] 70000 .invalid (by omega),
    h.2.2.2 (fun _ _ => .ok [c4ex]) [56, 48] false .invalid⟩

/-! ## Port invariants (claim C9) -/

theorem ntohs_htons (p : Nat) (hp : p < 65536) : ntohs16 (htons16 p) = p := by
  unfold ntohs16 htons16
  have h1 : p / 256 % 256 = p / 256 := Nat.mod_eq_of_lt (by omega)
  rw [h1]
  have h2 : (p % 256 * 256 + p / 256) % 256 = p / 256 := by omega
  have h3 : (p % 256 * 256 + p / 256) / 256 = p % 256 := by omega
  rw [h2, h3]
  omega

/-- Counterexample to C9 as stated: set_port performs no validation, so
a port of 0 is reachable on a valid address that was not built by
wildcard construction: initialize a literal IPv4 address with port 80,
then set_port 0. -/
theorem port_zero_non_wildcard :
    is_valid (set_port 0
      ((init_ipv4_port (fun _ => .ok [1, 2, 3, 4]) [48] 80 .invalid).2)) = true ∧
    get_port (set_port 0
      ((init_ipv4_port (fun _ => .ok [1, 2, 3, 4]) [48] 80 .invalid).2)) = 0 ∧
    (init_ipv4_port (fun _ => .ok [1, 2, 3, 4]) [48] 80 .invalid).2 ≠ init_ipv4_any ∧
    (init_ipv4_port (fun _ => .ok [1, 2, 3, 4]) [48] 80 .invalid).2 ≠ init_ipv6_any :=
  ⟨by decide, by decide, by decide, by decide⟩

/-- C9 (amended): the stored port always reads back in [0, 65535]; a
successful init_ipv4_port or init_ipv6_port yields exactly the
validated requested port, which lies in [1, 65535]; the wildcard
constructors yield port 0; but set_port stores its argument truncated
to 16 bits with no validation, so port 0 (and wrapped out-of-range
values) can also arise from set_port on any valid address, not only
from wildcard construction. -/
theorem port_range_invariants :
    (∀ a, get_port a ≤ 65535) ∧
    (∀ pton s p prior st, init_ipv4_port pton s p prior = (.ok (), st) →
      1 ≤ p ∧ p ≤ 65535 ∧ get_port st = p.toNat ∧ is_valid st = true) ∧
    (∀ pton s p prior st, init_ipv6_port pton s p prior = (.ok (), st) →
      1 ≤ p ∧ p ≤ 65535 ∧ get_port st = p.toNat ∧ is_valid st = true) ∧
    (get_port init_ipv4_any = 0 ∧ get_port init_ipv6_any = 0) ∧
    (∀ p a, is_valid a = true →
      is_valid (set_port p a) = true ∧
      get_port (set_port p a) = (p % 65536).toNat) := by
  refine ⟨?_, ?_, ?_, ⟨rfl, rfl⟩, ?_⟩
  · intro a
    cases a with
    | invalid => exact Nat.zero_le _
    | v4 pn b =>
      show ntohs16 pn ≤ 65535
      unfold ntohs16
      omega
    | v6 pn b =>
      show ntohs16 pn ≤ 65535
      unfold ntohs16
      omega
  · intro pton s p prior st h
    by_cases hp : p ≤ 0 ∨ 65536 ≤ p
    · simp [init_ipv4_port, hp] at h
    · push_neg at hp
      have hp1 : 1 ≤ p := hp.1
      have hp2 : p ≤ 65535 := by omega
      cases hpt : pton s with
      | noAddr =>
        have hno : ¬(p ≤ 0 ∨ 65536 ≤ p) := by omega
        simp [init_ipv4_port, hpt, hno] at h
      | syserr c =>
        have hno : ¬(p ≤ 0 ∨ 65536 ≤ p) := by omega
        simp [init_ipv4_port, hpt, hno] at h
      | ok bytes =>
        have hno : ¬(p ≤ 0 ∨ 65536 ≤ p) := by omega
        simp only [init_ipv4_port, hpt, if_neg hno, Prod.mk.injEq] at h
        refine ⟨hp1, hp2, ?_, ?_⟩
        · rw [← h.2]
          show ntohs16 (htons16 p.toNat) = p.toNat
          exact ntohs_htons p.toNat (by omega)
        · rw [← h.2]
          rfl
  · intro pton s p prior st h
    by_cases hp : p ≤ 0 ∨ 65536 ≤ p
    · simp [init_ipv6_port, hp] at h
    · push_neg at hp
      have hp1 : 1 ≤ p := hp.1
      have hp2 : p ≤ 65535 := by omega
      cases hpt : pton s with
      | noAddr =>
        have hno : ¬(p ≤ 0 ∨ 65536 ≤ p) := by omega
        simp [init_ipv6_port, hpt, hno] at h
      | syserr c =>
        have hno : ¬(p ≤ 0 ∨ 65536 ≤ p) := by omega
        simp [init_ipv6_port, hpt, hno] at h
      | ok bytes =>
        have hno : ¬(p ≤ 0 ∨ 65536 ≤ p) := by omega
        simp only [init_ipv6_port, hpt, if_neg hno, Prod.mk.injEq] at h
        refine ⟨hp1, hp2, ?_, ?_⟩
        · rw [← h.2]
          show ntohs16 (htons16 p.toNat) = p.toNat
          exact ntohs_htons p.toNat (by omega)
        · rw [← h.2]
          rfl
  · intro p a ha
    cases a with
    | invalid => simp [is_valid] at ha
    | v4 pn b =>
      refine ⟨rfl, ?_⟩
      show ntohs16 (htons16 (p % 65536).toNat) = (p % 65536).toNat
      exact ntohs_htons _ (by omega)
    | v6 pn b =>
      refine ⟨rfl, ?_⟩
      show ntohs16 (htons16 (p % 65536).toNat) = (p % 65536).toNat
      exact ntohs_htons _ (by omega)

/-- Witness for port_range_invariants: a literal IPv4 init with port 80
reads back port 80, and set_port 70000 on it stores 70000 mod 65536 =
4464. -/
theorem port_range_invariants_witness :
    get_port (.v4 20480 [1, 2, 3, 4]) = 80 ∧
    is_valid (set_port 70000 (.v4 20480 [1, 2, 3, 4])) = true ∧
    get_port (set_port 70000 (.v4 20480 [1, 2, 3, 4])) = 4464 := by
  have h := port_range_invariants
  refine ⟨?_, ?_, ?_⟩
  · exact ((h.2.1 (fun _ => .ok [1, 2, 3, 4]) [48] 80 .invalid
      (.v4 20480 [1, 2, 3, 4]) (by decide)).2.2.1).trans (by decide)
  · exact (h.2.2.2.2 70000 (.v4 20480 [1, 2, 3, 4]) (by decide)).1
  · exact ((h.2.2.2.2 70000 (.v4 20480 [1, 2, 3, 4]) (by decide)).2).trans (by decide)

/-! ## Ordering and equality (claim C8) -/

theorem lexLt_nil_left (l : List Nat) : lexLt [] l = false := rfl

theorem lexLt_nil_right (l : List Nat) : lexLt l [] = false := by
  cases l <;> rfl

theorem lexLt_cons (x y : Nat) (xs ys : List Nat) :
    lexLt (x :: xs) (y :: ys) = true ↔ (x < y ∨ (x = y ∧ lexLt xs ys = true)) := by
  simp [lexLt]

theorem lexLt_irrefl : ∀ l : List Nat, lexLt l l = false
  | [] => rfl
  | x :: xs => by simp [lexLt, lexLt_irrefl xs]

theorem lexLt_asymm : ∀ l1 l2 : List Nat, lexLt l1 l2 = true → lexLt l2 l1 = false
  | [], l2, h => by rw [lexLt_nil_left] at h; exact absurd h (by simp)
  | x :: xs, [], h => by rw [lexLt_nil_right] at h; exact absurd h (by simp)
  | x :: xs, y :: ys, h => by
    rw [lexLt_cons] at h
    rw [← Bool.not_eq_true, lexLt_cons]
    rcases h with h | ⟨rfl, hr⟩
    · rintro (h2 | ⟨rfl, h2⟩) <;> omega
    · rintro (h2 | ⟨-, h2⟩)
      · omega
      · have hf := lexLt_asymm xs ys hr
        rw [h2] at hf
        exact absurd hf (by simp)

theorem lexLt_trans : ∀ l1 l2 l3 : List Nat,
    lexLt l1 l2 = true → lexLt l2 l3 = true → lexLt l1 l3 = true
  | [], _, _, h, _ => by rw [lexLt_nil_left] at h; exact absurd h (by simp)
  | _ :: _, [], _, h, _ => by rw [lexLt_nil_right] at h; exact absurd h (by simp)
  | _ :: _, _ :: _, [], _, h2 => by
    rw [lexLt_nil_right] at h2
    exact absurd h2 (by simp)
  | x :: xs, y :: ys, z :: zs, h1, h2 => by
    rw [lexLt_cons] at h1 h2 ⊢
    rcases h1 with h1 | ⟨rfl, hr1⟩
    · rcases h2 with h2 | ⟨rfl, hr2⟩
      · exact Or.inl (by omega)
      · exact Or.inl h1
    · rcases h2 with h2 | ⟨rfl, hr2⟩
      · exact Or.inl h2
      · exact Or.inr ⟨rfl, lexLt_trans xs ys zs hr1 hr2⟩

theorem lexLt_total : ∀ l1 l2 : List Nat, l1.length = l2.length →
    l1 = l2 ∨ lexLt l1 l2 = true ∨ lexLt l2 l1 = true
  | [], [], _ => Or.inl rfl
  | [], _ :: _, h => by simp at h
  | _ :: _, [], h => by simp at h
  | x :: xs, y :: ys, h => by
    rcases Nat.lt_trichotomy x y with hxy | rfl | hxy
    · exact Or.inr (Or.inl ((lexLt_cons x y xs ys).mpr (Or.inl hxy)))
    · rcases lexLt_total xs ys (by simpa using h) with h2 | h2 | h2
      · exact Or.inl (by rw [h2])
      · exact Or.inr (Or.inl ((lexLt_cons x x xs ys).mpr (Or.inr ⟨rfl, h2⟩)))
      · exact Or.inr (Or.inr ((lexLt_cons x x ys xs).mpr (Or.inr ⟨rfl, h2⟩)))
    · exact Or.inr (Or.inr ((lexLt_cons y x ys xs).mpr (Or.inl hxy)))

theorem payLt_trans (p1 p2 p3 : Nat) (b1 b2 b3 : List Nat)
    (h1 : (if p1 = p2 then lexLt b1 b2 else decide (p1 < p2)) = true)
    (h2 : (if p2 = p3 then lexLt b2 b3 else decide (p2 < p3)) = true) :
    (if p1 = p3 then lexLt b1 b3 else decide (p1 < p3)) = true := by
  by_cases e12 : p1 = p2
  · subst e12
    rw [if_pos rfl] at h1
    by_cases e13 : p1 = p3
    · subst e13
      rw [if_pos rfl] at h2 ⊢
      exact lexLt_trans b1 b2 b3 h1 h2
    · rw [if_neg e13] at h2 ⊢
      exact h2
  · rw [if_neg e12] at h1
    by_cases e23 : p2 = p3
    · subst e23
      rw [if_neg e12]
      exact h1
    · rw [if_neg e23] at h2
      simp only [decide_eq_true_eq] at h1 h2
      rw [if_neg (by omega)]
      simp only [decide_eq_true_eq]
      omega

theorem payLt_asymm (p1 p2 : Nat) (b1 b2 : List Nat)
    (h : (if p1 = p2 then lexLt b1 b2 else decide (p1 < p2)) = true) :
    (if p2 = p1 then lexLt b2 b1 else decide (p2 < p1)) = false := by
  by_cases e : p1 = p2
  · subst e
    rw [if_pos rfl] at h ⊢
    exact lexLt_asymm b1 b2 h
  · rw [if_neg e] at h
    rw [if_neg (Ne.symm e)]
    simp only [decide_eq_true_eq] at h
    simp only [decide_eq_false_iff_not]
    omega

theorem payLt_total (p1 p2 : Nat) (b1 b2 : List Nat) (hlen : b1.length = b2.length)
    (hne : ¬(p1 = p2 ∧ b1 = b2)) :
    (if p1 = p2 then lexLt b1 b2 else decide (p1 < p2)) = true ∨
    (if p2 = p1 then lexLt b2 b1 else decide (p2 < p1)) = true := by
  by_cases e : p1 = p2
  · subst e
    rcases lexLt_total b1 b2 hlen with rfl | h | h
    · exact absurd ⟨rfl, rfl⟩ hne
    · exact Or.inl (by rw [if_pos rfl]; exact h)
    · exact Or.inr (by rw [if_pos rfl]; exact h)
  · by_cases lt : p1 < p2
    · exact Or.inl (by rw [if_neg e]; simpa using lt)
    · refine Or.inr ?_
      rw [if_neg (Ne.symm e)]
      simp only [decide_eq_true_eq]
      omega

theorem ipLt_trans : ∀ a b c : IPAddress,
    ipLt a b = true → ipLt b c = true → ipLt a c = true := by
  intro a b c h1 h2
  cases a with
  | invalid =>
    cases c with
    | invalid => cases b <;> simp [ipLt] at h1 h2
    | v4 _ _ => rfl
    | v6 _ _ => rfl
  | v4 p1 b1 =>
    cases b with
    | invalid => simp [ipLt] at h1
    | v4 p2 b2 =>
      cases c with
      | invalid => simp [ipLt] at h2
      | v4 p3 b3 => exact payLt_trans p1 p2 p3 b1 b2 b3 h1 h2
      | v6 _ _ => rfl
    | v6 p2 b2 =>
      cases c with
      | invalid => simp [ipLt] at h2
      | v4 p3 b3 => simp [ipLt] at h2
      | v6 p3 b3 => rfl
  | v6 p1 b1 =>
    cases b with
    | invalid => simp [ipLt] at h1
    | v4 p2 b2 => simp [ipLt] at h1
    | v6 p2 b2 =>
      cases c with
      | invalid => simp [ipLt] at h2
      | v4 p3 b3 => simp [ipLt] at h2
      | v6 p3 b3 => exact payLt_trans p1 p2 p3 b1 b2 b3 h1 h2

theorem ipLt_irrefl : ∀ a : IPAddress, ipLt a a = false := by
  intro a
  cases a with
  | invalid => rfl
  | v4 p b =>
    show (if p = p then lexLt b b else decide (p < p)) = false
    rw [if_pos rfl]
    exact lexLt_irrefl b
  | v6 p b =>
    show (if p = p then lexLt b b else decide (p < p)) = false
    rw [if_pos rfl]
    exact lexLt_irrefl b

theorem ipLt_asymm : ∀ a b : IPAddress, ipLt a b = true → ipLt b a = false := by
  intro a b h
  cases a with
  | invalid => cases b <;> rfl
  | v4 p1 b1 =>
    cases b with
    | invalid => simp [ipLt] at h
    | v4 p2 b2 => exact payLt_asymm p1 p2 b1 b2 h
    | v6 p2 b2 => rfl
  | v6 p1 b1 =>
    cases b with
    | invalid => simp [ipLt] at h
    | v4 p2 b2 => simp [ipLt] at h
    | v6 p2 b2 => exact payLt_asymm p1 p2 b1 b2 h

theorem ipEq_iff : ∀ a b : IPAddress, ipEq a b = true ↔ a = b := by
  intro a b
  cases a <;> cases b <;> simp [ipEq]

theorem ipLt_connex : ∀ a b : IPAddress, wf a → wf b → ipEq a b = false →
    ipLt a b = true ∨ ipLt b a = true := by
  intro a b ha hb hne
  cases a with
  | invalid =>
    cases b with
    | invalid => simp [ipEq] at hne
    | v4 _ _ => exact Or.inl rfl
    | v6 _ _ => exact Or.inl rfl
  | v4 p1 b1 =>
    cases b with
    | invalid => exact Or.inr rfl
    | v4 p2 b2 =>
      have hlen : b1.length = b2.length := by
        rw [show b1.length = 4 from ha, show b2.length = 4 from hb]
      refine payLt_total p1 p2 b1 b2 hlen ?_
      intro hh
      rw [show ipEq (.v4 p1 b1) (.v4 p2 b2) = (p1 == p2 && b1 == b2) from rfl] at hne
      simp [hh.1, hh.2] at hne
    | v6 _ _ => exact Or.inl rfl
  | v6 p1 b1 =>
    cases b with
    | invalid => exact Or.inr rfl
    | v4 _ _ => exact Or.inr rfl
    | v6 p2 b2 =>
      have hlen : b1.length = b2.length := by
        rw [show b1.length = 16 from ha, show b2.length = 16 from hb]
      refine payLt_total p1 p2 b1 b2 hlen ?_
      intro hh
      rw [show ipEq (.v6 p1 b1) (.v6 p2 b2) = (p1 == p2 && b1 == b2) from rfl] at hne
      simp [hh.1, hh.2] at hne

/-- Counterexample to the by-port clause of C8 as stated: the order
compares the stored 16-bit port field, which holds htons(port), so on a
little-endian host the address initialized with port 256 (stored field
htons(256) = 1) sorts strictly before the address initialized with port
1 (stored field htons(1) = 256), the opposite of numeric port order. -/
theorem order_uses_raw_port_field :
    ipLt ((init_ipv4_port (fun _ => .ok [0, 0, 0, 0]) [48] 256 .invalid).2)
      ((init_ipv4_port (fun _ => .ok [0, 0, 0, 0]) [48] 1 .invalid).2) = true ∧
    get_port ((init_ipv4_port (fun _ => .ok [0, 0, 0, 0]) [48] 256 .invalid).2) = 256 ∧
    get_port ((init_ipv4_port (fun _ => .ok [0, 0, 0, 0]) [48] 1 .invalid).2) = 1 :=
  ⟨by decide, by decide, by decide⟩

/-- C8 (amended): the comparison operator on well-formed addresses is a
strict total order — irreflexive, transitive, asymmetric, with equality
holding exactly when neither side is below the other — in which every
invalid address sorts before every valid address, and valid addresses
are ordered by family tag (AF_INET before AF_INET6), then by the 16-bit
port field exactly as stored in network byte order (on the
little-endian hosts this code targets that differs from numeric port
order), then by the raw address bytes, unsigned lexicographic. -/
theorem address_strict_total_order (a b : IPAddress) (ha : wf a) (hb : wf b) :
    (ipLt a a = false) ∧
    (∀ c, ipLt a b = true → ipLt b c = true → ipLt a c = true) ∧
    (ipLt a b = true → ipLt b a = false) ∧
    (ipEq a b = true ↔ a = b) ∧
    ((ipLt a b = true ∧ ipLt b a = false ∧ ipEq a b = false) ∨
     (ipLt b a = true ∧ ipLt a b = false ∧ ipEq a b = false) ∨
     (ipEq a b = true ∧ ipLt a b = false ∧ ipLt b a = false)) ∧
    (is_valid a = false → is_valid b = true → ipLt a b = true) ∧
    (∀ p1 d1 p2 d2, ipLt (.v4 p1 d1) (.v6 p2 d2) = true ∧
      ipLt (.v6 p2 d2) (.v4 p1 d1) = false) ∧
    (∀ p1 d1 p2 d2, p1 ≠ p2 →
      ipLt (.v4 p1 d1) (.v4 p2 d2) = decide (p1 < p2) ∧
      ipLt (.v6 p1 d1) (.v6 p2 d2) = decide (p1 < p2)) ∧
    (∀ p d1 d2, ipLt (.v4 p d1) (.v4 p d2) = lexLt d1 d2 ∧
      ipLt (.v6 p d1) (.v6 p d2) = lexLt d1 d2) := by
  refine ⟨ipLt_irrefl a, fun c => ipLt_trans a b c, ipLt_asymm a b, ipEq_iff a b,
    ?_, ?_, ?_, ?_, ?_⟩
  · by_cases he : a = b
    · subst he
      exact Or.inr (Or.inr ⟨(ipEq_iff a a).mpr rfl, ipLt_irrefl a, ipLt_irrefl a⟩)
    · have hef : ipEq a b = false := by
        rw [← Bool.not_eq_true]
        exact fun hh => he ((ipEq_iff a b).mp hh)
      rcases ipLt_connex a b ha hb hef with h | h
      · exact Or.inl ⟨h, ipLt_asymm a b h, hef⟩
      · exact Or.inr (Or.inl ⟨h, ipLt_asymm b a h, hef⟩)
  · intro hva hvb
    cases a with
    | invalid => cases b with
      | invalid => simp [is_valid] at hvb
      | v4 _ _ => rfl
      | v6 _ _ => rfl
    | v4 _ _ => simp [is_valid] at hva
    | v6 _ _ => simp [is_valid] at hva
  · exact fun p1 d1 p2 d2 => ⟨rfl, rfl⟩
  · intro p1 d1 p2 d2 hne
    constructor
    · show (if p1 = p2 then lexLt d1 d2 else decide (p1 < p2)) = decide (p1 < p2)
      rw [if_neg hne]
    · show (if p1 = p2 then lexLt d1 d2 else decide (p1 < p2)) = decide (p1 < p2)
      rw [if_neg hne]
  · intro p d1 d2
    constructor
    · show (if p = p then lexLt d1 d2 else decide (p < p)) = lexLt d1 d2
      rw [if_pos rfl]
    · show (if p = p then lexLt d1 d2 else decide (p < p)) = lexLt d1 d2
      rw [if_pos rfl]

/-- Witness for address_strict_total_order at two concrete well-formed
IPv4 addresses. -/
theorem address_strict_total_order_witness :
    ipLt (.v4 1 [1, 2, 3, 4]) (.v4 1 [1, 2, 3, 4]) = false ∧
    ipEq (.v4 1 [1, 2, 3, 4]) (.v4 1 [1, 2, 3, 4]) = true ∧
    ipLt (.v4 1 [1, 2, 3, 4]) (.v4 1 [1, 2, 3, 5]) = true := by
  have h := address_strict_total_order (.v4 1 [1, 2, 3, 4]) (.v4 1 [1, 2, 3, 5])
    rfl rfl
  have h2 := address_strict_total_order (.v4 1 [1, 2, 3, 4]) (.v4 1 [1, 2, 3, 4])
    rfl rfl
  refine ⟨h.1, (h2.2.2.2.1).mpr rfl, ?_⟩
  exact ((h.2.2.2.2.2.2.2.2 1 [1, 2, 3, 4] [1, 2, 3, 5]).1).trans (by decide)

/-! ## Equivalence of the source punycode encoder with RFC 3492
(claim C1)

The source keeps the negated bias (initial -72 against the RFC's 72),
starts n at 127 against the RFC's 128, and merges the RFC's final
n = m; n = n + 1 steps into keeping n = m; the lemmas below relate the
two state machines step by step. -/

theorem rfcT_pos (k bias : Nat) : 1 ≤ rfcT k bias := by
  unfold rfcT
  split_ifs <;> omega

theorem rfcT_le (k bias : Nat) : rfcT k bias ≤ 26 := by
  unfold rfcT
  split_ifs <;> omega

theorem clamp_rfcT (k bias : Nat) :
    (clampI ((k : Int) - bias) 1 26).toNat = rfcT k bias := by
  unfold clampI rfcT
  split_ifs <;> omega

theorem digits_eq : ∀ (fuel k bias q : Nat),
    tdDigits fuel ((k : Int) - 36 - bias) q = rfcDigits fuel k bias q := by
  intro fuel
  induction fuel with
  | zero => intro k bias q; rfl
  | succ fuel ih =>
    intro k bias q
    simp only [tdDigits, rfcDigits]
    have hb1 : (k : Int) - 36 - bias + 36 = (k : Int) - bias := by ring
    rw [hb1, clamp_rfcT k bias]
    by_cases hq : q < rfcT k bias
    · rw [if_pos hq, if_pos hq]
      have hq26 : q < 26 := lt_of_lt_of_le hq (rfcT_le k bias)
      simp [digitChar, hq26]
    · rw [if_neg hq, if_neg hq]
      have htail := ih (k + 36) bias ((q - rfcT k bias) / (36 - rfcT k bias))
      have hcast : ((k + 36 : Nat) : Int) - 36 - bias = (k : Int) - bias := by
        push_cast
        ring
      rw [hcast] at htail
      rw [htail]
      rfl

theorem halve_eq : ∀ (fuel d k : Nat),
    tdHalve fuel d (-(k : Int)) = ((rfcHalve fuel d k).1, -((rfcHalve fuel d k).2 : Int)) := by
  intro fuel
  induction fuel with
  | zero => intro d k; rfl
  | succ fuel ih =>
    intro d k
    simp only [tdHalve, rfcHalve]
    by_cases hd : 455 < d
    · rw [if_pos hd, if_pos hd]
      have hcast : -(k : Int) - 36 = -((k + 36 : Nat) : Int) := by
        push_cast
        ring
      rw [hcast]
      exact ih (d / 35) (k + 36)
    · rw [if_neg hd, if_neg hd]

theorem adapt_eq_aux (d : Nat) :
    (tdHalve (d + 1) d 0).2 - (36 * (tdHalve (d + 1) d 0).1 / ((tdHalve (d + 1) d 0).1 + 38) : Nat)
      = -(((rfcHalve (d + 1) d 0).2 + 36 * (rfcHalve (d + 1) d 0).1 / ((rfcHalve (d + 1) d 0).1 + 38) : Nat) : Int) := by
  have h := halve_eq (d + 1) d 0
  have h0 : (-((0 : Nat) : Int)) = (0 : Int) := by simp
  rw [h0] at h
  rw [h]
  push_cast
  ring

theorem adapt_eq (delta p : Nat) (f : Bool) :
    tdAdapt delta p f = -(adapt delta p f : Int) := by
  simp only [tdAdapt, adapt]
  exact adapt_eq_aux _

/-- The simulation relation between a source punycode loop state and an
RFC 3492 encoder state (b is the basic code point count): same delta,
negated bias, same processed count, same output, and the source
first-adaptation flag is set exactly while the RFC handled count still
equals b. -/
def StRel (b : Nat) (s : TdSt) (r : RfcSt) : Prop :=
  s.delta = r.delta ∧ s.bias = -(r.bias : Int) ∧ s.processed = r.h ∧ s.out = r.out ∧
    ((s.isFirst = true ∧ r.h = b) ∨ (s.isFirst = false ∧ b < r.h))

theorem lowerBasic_le (c : Nat) (hc : c ≤ 127) : lowerBasic c ≤ 127 := by
  unfold lowerBasic toLowerByte
  split_ifs <;> omega

theorem tdInner_emit (m : Nat) (s : TdSt) :
    tdInner m s m =
      { delta := 0,
        bias := tdAdapt s.delta (s.processed + 1) s.isFirst,
        processed := s.processed + 1, isFirst := false,
        out := s.out ++ tdDigits (s.delta + 1) s.bias s.delta } := by
  simp only [tdInner]
  rw [if_neg (lt_irrefl m)]
  exact if_pos trivial

theorem tdInner_low (m : Nat) (s : TdSt) (c : Nat) (h : c < m) :
    tdInner m s c = { s with delta := s.delta + 1 } := by
  simp only [tdInner]
  rw [if_pos h, if_neg (Nat.ne_of_lt h)]

theorem tdInner_high (m : Nat) (s : TdSt) (c : Nat) (h1 : ¬c < m) (h2 : c ≠ m) :
    tdInner m s c = s := by
  simp only [tdInner]
  rw [if_neg h1, if_neg h2]

theorem rfcInner_emit (m b : Nat) (r : RfcSt) :
    rfcInner m b r m =
      { delta := 0,
        bias := adapt r.delta (r.h + 1) (r.h == b), h := r.h + 1,
        out := r.out ++ rfcDigits (r.delta + 1) 36 r.bias r.delta } := by
  simp only [rfcInner]
  rw [if_neg (lt_irrefl m)]
  exact if_pos trivial

theorem rfcInner_low (m b : Nat) (r : RfcSt) (c : Nat) (h : c < m) :
    rfcInner m b r c = { r with delta := r.delta + 1 } := by
  simp only [rfcInner]
  rw [if_pos h, if_neg (Nat.ne_of_lt h)]

theorem rfcInner_high (m b : Nat) (r : RfcSt) (c : Nat) (h1 : ¬c < m) (h2 : c ≠ m) :
    rfcInner m b r c = r := by
  simp only [rfcInner]
  rw [if_neg h1, if_neg h2]

theorem inner_step (m b : Nat) (hm : 128 ≤ m) (s : TdSt) (r : RfcSt) (c : Nat)
    (hr : StRel b s r) : StRel b (tdInner m s c) (rfcInner m b r (lowerBasic c)) := by
  obtain ⟨hd, hb, hp, ho, hf⟩ := hr
  by_cases hcm : c = m
  · subst hcm
    have hc127 : ¬c ≤ 127 := by omega
    have hlb : lowerBasic c = c := by simp [lowerBasic, hc127]
    rw [hlb, tdInner_emit, rfcInner_emit]
    have hflag : s.isFirst = (r.h == b) := by
      rcases hf with ⟨h1, h2⟩ | ⟨h1, h2⟩
      · rw [h1, h2, beq_self_eq_true]
      · rw [h1]
        have hne : (r.h == b) = false := by
          simp only [beq_eq_false_iff_ne, ne_eq]
          omega
        rw [hne]
    refine ⟨rfl, ?_, ?_, ?_, ?_⟩
    · show tdAdapt s.delta (s.processed + 1) s.isFirst = -((adapt r.delta (r.h + 1) (r.h == b) : Nat) : Int)
      rw [hd, hp, hflag, adapt_eq]
    · show s.processed + 1 = r.h + 1
      rw [hp]
    · show s.out ++ tdDigits (s.delta + 1) s.bias s.delta =
        r.out ++ rfcDigits (r.delta + 1) 36 r.bias r.delta
      rw [ho, hd, hb]
      have hcast : -((r.bias : Nat) : Int) = ((36 : Nat) : Int) - 36 - r.bias := by
        push_cast
        ring
      rw [hcast, digits_eq]
    · rcases hf with ⟨h1, h2⟩ | ⟨h1, h2⟩
      · exact Or.inr ⟨rfl, by show b < r.h + 1; omega⟩
      · exact Or.inr ⟨rfl, by show b < r.h + 1; omega⟩
  · by_cases hc127 : c ≤ 127
    · have hl1 : lowerBasic c ≤ 127 := lowerBasic_le c hc127
      have hcm2 : c < m := by omega
      have hlm2 : lowerBasic c < m := by omega
      rw [tdInner_low m s c hcm2, rfcInner_low m b r (lowerBasic c) hlm2]
      exact ⟨by show s.delta + 1 = r.delta + 1; rw [hd], hb, hp, ho, hf⟩
    · have hlc : lowerBasic c = c := by simp [lowerBasic, hc127]
      rw [hlc]
      by_cases hlt : c < m
      · rw [tdInner_low m s c hlt, rfcInner_low m b r c hlt]
        exact ⟨by show s.delta + 1 = r.delta + 1; rw [hd], hb, hp, ho, hf⟩
      · rw [tdInner_high m s c hlt hcm, rfcInner_high m b r c hlt hcm]
        exact ⟨hd, hb, hp, ho, hf⟩

theorem fold_rel (m b : Nat) (hm : 128 ≤ m) :
    ∀ (codes : List Nat) (s : TdSt) (r : RfcSt), StRel b s r →
      StRel b (codes.foldl (tdInner m) s) ((codes.map lowerBasic).foldl (rfcInner m b) r)
  | [], _, _, hr => hr
  | c :: cs, s, r, hr =>
    fold_rel m b hm cs (tdInner m s c) (rfcInner m b r (lowerBasic c))
      (inner_step m b hm s r c hr)

theorem minAtLeast_succ (n : Nat) (codes : List Nat) :
    minAbove n codes = minAtLeast (n + 1) codes := rfl

theorem minAtLeast_aux (n : Nat) (hn : 128 ≤ n) :
    ∀ (codes : List Nat) (acc : Nat),
      (codes.map lowerBasic).foldl
        (fun acc c => if n ≤ c ∧ c < acc then c else acc) acc =
      codes.foldl (fun acc c => if n ≤ c ∧ c < acc then c else acc) acc := by
  intro codes
  induction codes with
  | nil => intro acc; rfl
  | cons c cs ih =>
    intro acc
    show (cs.map lowerBasic).foldl _
        (if n ≤ lowerBasic c ∧ lowerBasic c < acc then lowerBasic c else acc) =
      cs.foldl _ (if n ≤ c ∧ c < acc then c else acc)
    by_cases hc : c ≤ 127
    · have h1 : lowerBasic c ≤ 127 := lowerBasic_le c hc
      rw [if_neg (by omega), if_neg (by omega)]
      exact ih acc
    · rw [show lowerBasic c = c from by simp [lowerBasic, hc]]
      exact ih _

theorem minAtLeast_map_lower (n : Nat) (hn : 128 ≤ n) (codes : List Nat) :
    minAtLeast n (codes.map lowerBasic) = minAtLeast n codes := by
  unfold minAtLeast
  exact minAtLeast_aux n hn codes 1114112

theorem minAbove_aux_ge (n : Nat) (hn : 127 ≤ n) :
    ∀ (codes : List Nat) (acc : Nat), 128 ≤ acc →
      128 ≤ codes.foldl (fun acc c => if n < c ∧ c < acc then c else acc) acc := by
  intro codes
  induction codes with
  | nil => intro acc h; exact h
  | cons c cs ih =>
    intro acc h
    show 128 ≤ cs.foldl _ (if n < c ∧ c < acc then c else acc)
    by_cases hc : n < c ∧ c < acc
    · rw [if_pos hc]
      exact ih c (by omega)
    · rw [if_neg hc]
      exact ih acc h

theorem minAbove_ge128 (n : Nat) (codes : List Nat) (hn : 127 ≤ n) :
    128 ≤ minAbove n codes := by
  unfold minAbove
  exact minAbove_aux_ge n hn codes 1114112 (by omega)

theorem loop_eq (b : Nat) : ∀ (fuel : Nat) (codes : List Nat) (n : Nat)
    (s : TdSt) (r : RfcSt), 127 ≤ n → StRel b s r →
    tdLoop codes fuel n s = rfcLoop (codes.map lowerBasic) b fuel (n + 1) r := by
  intro fuel
  induction fuel with
  | zero =>
    intro codes n s r hn hr
    exact hr.2.2.2.1
  | succ fuel ih =>
    intro codes n s r hn hr
    obtain ⟨hd, hb, hp, ho, hf⟩ := hr
    simp only [tdLoop, rfcLoop, List.length_map]
    by_cases hcond : s.processed < codes.length
    · have hcond2 : r.h < codes.length := hp ▸ hcond
      rw [if_pos hcond, if_pos hcond2]
      have hm1 : minAtLeast (n + 1) (codes.map lowerBasic) = minAbove n codes := by
        rw [minAtLeast_map_lower (n + 1) (by omega) codes, minAtLeast_succ]
      rw [hm1]
      have hm128 : 128 ≤ minAbove n codes := minAbove_ge128 n codes hn
      have hr1 : StRel b
          { s with delta := s.delta + (minAbove n codes - n - 1) * (s.processed + 1) }
          { r with delta := r.delta + (minAbove n codes - (n + 1)) * (r.h + 1) } := by
        refine ⟨?_, hb, hp, ho, hf⟩
        show s.delta + (minAbove n codes - n - 1) * (s.processed + 1) =
          r.delta + (minAbove n codes - (n + 1)) * (r.h + 1)
        rw [hd, hp, Nat.sub_sub]
      have hfold := fold_rel (minAbove n codes) b hm128 codes _ _ hr1
      exact ih codes (minAbove n codes) _ _ (by omega)
        ⟨by rw [hfold.1], hfold.2.1, hfold.2.2.1, hfold.2.2.2.1, hfold.2.2.2.2⟩
    · have hcond2 : ¬r.h < codes.length := hp ▸ hcond
      rw [if_neg hcond, if_neg hcond2]
      exact ho

theorem filter_lower_comm : ∀ codes : List Nat,
    (codes.map lowerBasic).filter (fun c => c ≤ 127) =
      (codes.filter (fun c => c ≤ 127)).map lowerBasic := by
  intro codes
  induction codes with
  | nil => rfl
  | cons c cs ih =>
    by_cases hc : c ≤ 127
    · have h1 : lowerBasic c ≤ 127 := lowerBasic_le c hc
      rw [List.map_cons, List.filter_cons_of_pos (by simpa using h1),
        List.filter_cons_of_pos (by simpa using hc), List.map_cons, ih]
    · have h1 : ¬lowerBasic c ≤ 127 := by
        rw [show lowerBasic c = c from by simp [lowerBasic, hc]]
        exact hc
      rw [List.map_cons, List.filter_cons_of_neg (by simpa using h1),
        List.filter_cons_of_neg (by simpa using hc), ih]

theorem map_lower_filter (codes : List Nat) :
    (codes.filter (fun c => c ≤ 127)).map lowerBasic =
      (codes.filter (fun c => c ≤ 127)).map toLowerByte := by
  apply List.map_congr_left
  intro c hc
  have hcle : c ≤ 127 := by simpa using (List.mem_filter.mp hc).2
  simp [lowerBasic, hcle]

/-- The source punycode encoder computes, for every label, exactly the
canonical RFC 3492 encoding of the label's code points with their ASCII
members lowercased. -/
theorem punycode_rfc (part : List Nat) :
    punycode part = rfcPunycode ((utf8Decode part).map lowerBasic) := by
  simp only [punycode, rfcPunycode]
  rw [List.length_map]
  rw [filter_lower_comm (utf8Decode part)]
  rw [List.length_map]
  rw [map_lower_filter (utf8Decode part)]
  exact loop_eq _ _ _ 127 _ _ (by omega) ⟨rfl, by norm_num, rfl, rfl, Or.inl ⟨rfl, rfl⟩⟩

/-- Counterexample to C1 as stated: the source punycode encoder
lowercases the basic (ASCII) code points it copies, while the canonical
RFC 3492 encoder copies them unchanged, so on the label B-u-umlaut
(bytes 66, 195, 188 — a label of the hostname B-u-umlaut.de) the source
output b-eha differs from the canonical output B-eha in the first
byte. -/
theorem punycode_lowercases_basic :
    is_ascii_host [66, 195, 188] = false ∧
    check_utf8 [66, 195, 188] = true ∧
    punycode [66, 195, 188] ≠ rfcPunycode (utf8Decode [66, 195, 188]) ∧
    punycode [66, 195, 188] = [98, 45, 101, 104, 97] ∧
    rfcPunycode (utf8Decode [66, 195, 188]) = [66, 45, 101, 104, 97] :=
  ⟨by decide, by decide, by decide, by decide, by decide⟩

/-- C1 (amended): for every label of a hostname — valid UTF-8, shorter
than the 1020-byte ceiling idn_to_ascii enforces — containing at least
one non-ASCII byte, the punycode encoder is a pure deterministic
function of the label whose output is byte-for-byte the canonical
Bootstring (RFC 3492, base 36, tmin 1, tmax 26, skew 38, damp 700,
initial bias 72, initial n 128) encoding of the label with its ASCII
code points lowercased.  (The hypotheses delimit the hostname-label
domain the claim speaks about; within it the C++ uint32/int arithmetic
matches the unbounded arithmetic of the model.) -/
theorem punycode_matches_rfc (part : List Nat)
    (_h1 : is_ascii_host part = false) (_h2 : check_utf8 part = true)
    (_h3 : part.length < 1020) :
    punycode part = rfcPunycode ((utf8Decode part).map lowerBasic) :=
  punycode_rfc part

/-- Witness for punycode_matches_rfc at the label b-u-umlaut (bytes 98,
195, 188): both sides evaluate to b-eha. -/
theorem punycode_matches_rfc_witness :
    is_ascii_host [98, 195, 188] = false ∧
    punycode [98, 195, 188] = [98, 45, 101, 104, 97] ∧
    rfcPunycode ((utf8Decode [98, 195, 188]).map lowerBasic) = [98, 45, 101, 104, 97] := by
  refine ⟨by decide, ?_, by decide⟩
  exact (punycode_matches_rfc [98, 195, 188] (by decide) (by decide)
    (by decide)).trans (by decide)

end TdNet
